import Mathlib

/-!
Shallow embedding of the wide-integer arithmetic layer (`M64`), the seeded
PRNG (`PRNG`) and the maze engine (`Maze`) of `src/utils.js`.

The host language guarantees exact float64 arithmetic on the integer values
that occur here (all intermediate plain sums and products stay far below
2^53), so plain numbers are modelled as `Int` and the bitwise operators are
modelled by the ECMAScript ToInt32/ToUint32 coercions made explicit.
-/

/-- ECMAScript ToUint32 of an integer-valued number: the value modulo 2^32,
taken non-negative. -/
def toUint32 (n : Int) : Int := n % 4294967296

/-- ECMAScript ToInt32 of an integer-valued number: the value modulo 2^32,
brought into the signed band [-2^31, 2^31). -/
def toInt32 (n : Int) : Int :=
  if n % 4294967296 < 2147483648 then n % 4294967296
  else n % 4294967296 - 4294967296

/-- The 32-bit pattern shared by ToInt32 and ToUint32, as a natural number. -/
def bits32 (n : Int) : Nat := (toUint32 n).toNat

/-- The bitwise xor operator of the host: both operands coerced through
ToInt32, combined on the 32 bit patterns, result read back as a signed
32-bit value. -/
def jsXor (a b : Int) : Int := toInt32 ((Nat.xor (bits32 a) (bits32 b) : Nat) : Int)

/-- The bitwise or operator of the host, with the same coercions as `jsXor`. -/
def jsOr (a b : Int) : Int := toInt32 ((Nat.lor (bits32 a) (bits32 b) : Nat) : Int)

/-- The bitwise and operator of the host, with the same coercions as `jsXor`. -/
def jsAnd (a b : Int) : Int := toInt32 ((Nat.land (bits32 a) (bits32 b) : Nat) : Int)

/-- Host shift count: ToUint32 of the right operand, masked to 5 bits. -/
def shamt (k : Int) : Nat := bits32 k % 32

/-- Host signed left shift `a << k`: the int32 value of `a` shifted left,
wrapped back into the signed 32-bit band. -/
def jsShl (a k : Int) : Int := toInt32 (toInt32 a * ((2 : Int) ^ shamt k))

/-- Host sign-propagating right shift `a >> k`: floor division of the int32
value of `a` by the shift power (sign extension is floor division). -/
def jsShr (a k : Int) : Int := toInt32 ((toInt32 a).fdiv ((2 : Int) ^ shamt k))

/-- Host zero-fill right shift `a >>> k`; `a >>> 0` is exactly ToUint32. -/
def jsShrU (a k : Int) : Int := (toUint32 a).fdiv ((2 : Int) ^ shamt k)

/-- A WideWord as the source stores it: index 0 holds the high 32-bit half
and index 1 the low half, this being the `[aH, aL]` destructuring used by
every operation of `M64`. -/
abbrev WideWord := Int × Int

/-- Numeric reading of a WideWord: high half times 2^32 plus low half. -/
def value64 (a : WideWord) : Int := a.1 * 4294967296 + a.2

/-- The function `M64.mul32`: the full product of two 32-bit operands from
four 16x16 partial products.  The carries of the recombination go through
the host shift operators unprotected, so the returned halves are plain
numbers, not masked to 32 bits. -/
def M64.mul32 (a b : Int) : WideWord :=
  let aH := jsAnd (jsShr a 16) 65535
  let aL := jsAnd a 65535
  let bH := jsAnd (jsShr b 16) 65535
  let bL := jsAnd b 65535
  let c := aH * bL + aL * bH
  (aH * bH + jsShr c 16, aL * bL + jsShl c 16)

/-- The function `M64.imul32`: the low component of `mul32`. -/
def M64.imul32 (a b : Int) : Int := (M64.mul32 a b).2

/-- The function `M64.add64`: each half is the plain sum wrapped by the
trailing zero-fill shift (`>>> 0` is ToUint32); no carry moves from the low
half into the high half. -/
def M64.add64 (a b : WideWord) : WideWord :=
  (toUint32 (a.1 + b.1), toUint32 (a.2 + b.2))

/-- A value of the host as far as this layer can observe one: a number, or
the two-element `arguments` object that `shift64` returns for shift amount
zero (element 0 the untouched input pair, element 1 the amount). -/
inductive JsVal where
  | num : Int → JsVal
  | arr : Int → Int → JsVal
deriving DecidableEq

/-- Numeric value a `JsVal` contributes once a bitwise operator applies
ToInt32 to it: a two-element array coerces through ToNumber to NaN, and
ToInt32 of NaN is 0. -/
def JsVal.toNum : JsVal → Int
  | JsVal.num n => n
  | JsVal.arr _ _ => 0

/-- Destructured pair view of a two-component host value. -/
def wordsOf (p : JsVal × JsVal) : WideWord := (p.1.toNum, p.2.toNum)

/-- The function `M64.shift64`: positive amounts shift right, negative
amounts shift left, and amount 0 falls through to `return arguments`, which
hands back the 2-element arguments object rather than the input pair. -/
def M64.shift64 (a : WideWord) (l : Int) : JsVal × JsVal :=
  if 0 < l then
    (JsVal.num (jsShr a.1 l), JsVal.num (jsOr (jsShl a.1 (32 - l)) (jsShr a.2 l)))
  else if l < 0 then
    (JsVal.num (jsOr (jsShl a.1 (-l)) (jsShr a.2 (32 + l))), JsVal.num (jsShl a.2 (-l)))
  else
    (JsVal.arr a.1 a.2, JsVal.num l)

/-- The function `M64.xor64`: component-wise xor on the destructured halves. -/
def M64.xor64 (a b : WideWord) : WideWord := (jsXor a.1 b.1, jsXor a.2 b.2)

/-- Host exceptions observable from this layer. -/
inductive JsError where
  | typeError : JsError
deriving DecidableEq

/-- The recursive call `M64.mul64(aH, bH)` of the source passes the scalar
32-bit halves where a destructurable pair is expected: destructuring the
parameter `[aH, aL]` from a non-iterable number throws a TypeError before
the body runs. -/
def M64.mul64num (_a _b : Int) : Except JsError WideWord :=
  Except.error JsError.typeError

/-- The function `M64.mul64` as written: the cross terms go through `mul32`,
but the two square terms invoke `mul64` itself on the scalar halves
(`M64.mul64(aH, bH)` and `M64.mul64(aL, bL)`), so evaluation of the result
array throws before anything is recombined. -/
def M64.mul64 (a b : WideWord) : Except JsError (WideWord × WideWord) := do
  let c := M64.add64 (M64.mul32 a.1 b.2) (M64.mul32 a.2 b.1)
  let hh ← M64.mul64num a.1 b.1
  let ll ← M64.mul64num a.2 b.2
  pure (M64.add64 hh (0, c.1), M64.add64 ll (c.2, 0))

/-- The function `M64.imul64`: the low component of `mul64`. -/
def M64.imul64 (a b : WideWord) : Except JsError WideWord :=
  (M64.mul64 a b).map Prod.snd

/-- The generator state: the pair of WideWords `(s0, s1)`. -/
structure PrngState where
  s0 : WideWord
  s1 : WideWord
deriving DecidableEq

/-- The method `PRNG.rand64`, the xorshift128+ step of the source: the state
is read into `x` and `y`, `x` is xored with its wide left shift by 23, the
new `s1` is `x ^ y ^ (x >> 17) ^ (y >> 26)` on wide words, the new `s0` is
the old `s1`, and the returned word adds the new `s1` to the old `s1` with
the carry-free `add64`. -/
def PRNG.rand64 (s : PrngState) : PrngState × WideWord :=
  let x := s.s0
  let y := s.s1
  let x1 := M64.xor64 x (wordsOf (M64.shift64 x (-23)))
  let ns1 := M64.xor64 (M64.xor64 x1 y)
      (M64.xor64 (wordsOf (M64.shift64 x1 17)) (wordsOf (M64.shift64 y 26)))
  (⟨y, ns1⟩, M64.add64 ns1 y)

/-- The method `PRNG.rand32`: component 0 of the `rand64` output word,
together with the advanced state. -/
def PRNG.rand32 (s : PrngState) : PrngState × Int :=
  ((PRNG.rand64 s).1, (PRNG.rand64 s).2.1)

/-- The constant `PRNG.max32`. -/
def PRNG.max32 : Int := 4294967295

/-- The method `PRNG.rand`: the `rand32` value divided by `max32`, as an
exact rational (the float64 quotient rounds to 1 exactly on the maximal
numerator and stays below 1 on every smaller one, so exact division is a
faithful model of the comparisons made with it). -/
def PRNG.rand (s : PrngState) : PrngState × ℚ :=
  ((PRNG.rand32 s).1, ((PRNG.rand32 s).2 : ℚ) / (PRNG.max32 : ℚ))

/-- The method `PRNG.hash32`: the accumulator starts from the magic constant
xored with the length, and every character code is folded in by a wrapping
multiply and a 13-bit left rotate built from the host shift operators.
Characters are modelled by their Unicode scalar value, which agrees with
`charCodeAt` on the basic multilingual plane. -/
def PRNG.hash32 (s : String) : Int :=
  s.data.foldl
    (fun hash c =>
      let h1 := M64.imul32 (jsXor hash (Int.ofNat c.toNat)) 3432918353
      jsOr (jsShl h1 13) (jsShrU h1 19))
    (jsXor 1779033703 (Int.ofNat s.length))

/-- The method `PRNG.hash64`: the first hash of the text goes into component
0 (the high half of a WideWord), and component 1 (the low half) re-hashes
the text prefixed with the decimal rendering of that first hash, exactly as
the concatenation `nL + str` does on the host. -/
def PRNG.hash64 (s : String) : WideWord :=
  let nL := PRNG.hash32 s
  (nL, PRNG.hash32 (toString nL ++ s))

/-- The RNG field of a `Maze`: either an actual generator state, or the
unapplied `PRNG.prototype.copy` method object, which is what
`Maze.split` stores into every child (`this.RNG.copy` without a call). -/
inductive RngSlot where
  | prng : PrngState → RngSlot
  | copyMethod : RngSlot
deriving DecidableEq

/-- The fields of a `Maze` that the claims concern: dimensions, the RNG
slot, and the row-major boolean grid. -/
structure Maze where
  X : Nat
  Y : Nat
  rng : RngSlot
  data : List (List Bool)
deriving DecidableEq

/-- The wall predicate returned by `Maze.isEdge(X, Y)`: the source tests
`x++ <= 0 || x >= X || y++ <= 0 || y >= Y`, so the first comparison sees
the original coordinate and the second sees it incremented by one. -/
def Maze.isEdge (X Y : Int) (x y : Int) : Bool :=
  decide (x ≤ 0) || decide (x + 1 ≥ X) || decide (y ≤ 0) || decide (y + 1 ≥ Y)

/-- The helper `cuts` of `Maze.split`: lodash `_.range(size / div)` rounds a
fractional end up, so the index list has ceil(size/div) entries; on the
divisible sizes the claims concern this is exactly size/div. -/
def Maze.cuts (div size : Nat) : List (Nat × Nat) :=
  (List.range ((size + div - 1) / div)).map fun x => (x * div, (x + 1) * div)

/-- The helper `cut` of `Maze.split`: every row of the rectangle is sliced
to the half-open index interval of each cut. -/
def Maze.cut {α : Type} (div size : Nat) (rect : List (List α)) :
    List (List (List α)) :=
  (Maze.cuts div size).map fun se => rect.map fun row => (row.drop se.1).take (se.2 - se.1)

/-- The method `Maze.split`: the grid is cut into bands of rows and then into
blocks of columns; every child is a fresh `Maze` holding its block, whose
RNG argument is `this.RNG.copy` — the method object itself, not a call of
it — so every child's slot is the shared unapplied method. -/
def Maze.split (m : Maze) (divX divY : Nat) : List (List Maze) :=
  ((Maze.cut divY m.Y [m.data]).map fun band => band.headD []).map fun rect =>
    (Maze.cut divX m.X rect).map fun d =>
      { X := (d.headD []).length, Y := d.length, rng := RngSlot.copyMethod, data := d }

/-- One cell of `Maze.loss`: an open cell survives when the fresh unit draw
exceeds `-rate * factor`, a closed cell opens when the draw is below
`rate * factor`; either way exactly one draw advances the state. -/
def Maze.lossCell (rng : PrngState) (rate fxy : ℚ) (value : Bool) :
    PrngState × Bool :=
  let r := PRNG.rand rng
  (r.1, if value then decide (r.2 > -rate * fxy) else decide (r.2 < rate * fxy))

/-- One row of `Maze.loss`, threading the generator left to right with the
running column index handed to the weight function. -/
def Maze.lossRow (rate : ℚ) (f : Nat → Nat → ℚ) (y : Nat) :
    PrngState → List Bool → Nat → PrngState × List Bool
  | rng, [], _ => (rng, [])
  | rng, v :: rest, x =>
    let c := Maze.lossCell rng rate (f x y) v
    let r := Maze.lossRow rate f y c.1 rest (x + 1)
    (r.1, c.2 :: r.2)

/-- All rows of `Maze.loss`, threading the generator top to bottom. -/
def Maze.lossRows (rate : ℚ) (f : Nat → Nat → ℚ) :
    PrngState → List (List Bool) → Nat → PrngState × List (List Bool)
  | rng, [], _ => (rng, [])
  | rng, row :: rest, y =>
    let r := Maze.lossRow rate f y rng row 0
    let rs := Maze.lossRows rate f r.1 rest (y + 1)
    (rs.1, r.2 :: rs.2)

/-- The method `Maze.loss` acting on the two fields it touches, the owned
generator and the grid: row-major rebuild of the grid, one draw per cell. -/
def Maze.loss (rng : PrngState) (data : List (List Bool)) (rate : ℚ)
    (f : Nat → Nat → ℚ) : PrngState × List (List Bool) :=
  Maze.lossRows rate f rng data 0

/-- Cell lookup in a row-major grid: row `y`, then column `x`. -/
def cellAt (data : List (List Bool)) (x y : Nat) : Option Bool :=
  (data[y]?).bind fun r => r[x]?

/-- The `next` step exactly as claim C2 words it: `x ^= x >> 23` with the
wide shift (positive amount = right shift), then
`newS1 = x ^ s1 ^ (x << 17) ^ (s1 << 26)` with wide left shifts, `newS0 =
s1`, and the output adds `newS1` to the pre-update `s1` with the wide add. -/
def specNextClaimed (s : PrngState) : PrngState × WideWord :=
  let x0 := s.s0
  let x := M64.xor64 x0 (wordsOf (M64.shift64 x0 23))
  let ns1 := M64.xor64 (M64.xor64 x s.s1)
      (M64.xor64 (wordsOf (M64.shift64 x (-17))) (wordsOf (M64.shift64 s.s1 (-26))))
  (⟨s.s1, ns1⟩, M64.add64 ns1 s.s1)

/-- The `next` step with the shift directions the code actually uses, the
classic xorshift128+ constants: `x ^= x << 23`, then
`newS1 = x ^ s1 ^ (x >> 17) ^ (s1 >> 26)`, `newS0 = s1`, output
`newS1 + s1` (pre-update `s1`) under the wide add. -/
def specNextXorshift (s : PrngState) : PrngState × WideWord :=
  let x0 := s.s0
  let x := M64.xor64 x0 (wordsOf (M64.shift64 x0 (-23)))
  let ns1 := M64.xor64 (M64.xor64 x s.s1)
      (M64.xor64 (wordsOf (M64.shift64 x 17)) (wordsOf (M64.shift64 s.s1 26)))
  (⟨s.s1, ns1⟩, M64.add64 ns1 s.s1)

/-- The empty seed text used by concrete evaluations below. -/
def emptyStr : String := ""

/-- The all-zero generator state used by concrete evaluations below. -/
def zeroState : PrngState := ⟨(0, 0), (0, 0)⟩

/-- ToUint32 always lands in [0, 2^32). -/
theorem toUint32_range (n : Int) : 0 ≤ toUint32 n ∧ toUint32 n < 4294967296 := by
  unfold toUint32; omega

/-- ToInt32 always lands in the signed band [-2^31, 2^31). -/
theorem toInt32_range (n : Int) : -2147483648 ≤ toInt32 n ∧ toInt32 n < 2147483648 := by
  unfold toInt32; split <;> omega

/-- ToInt32 fixes the values already inside [0, 2^31). -/
theorem toInt32_of_small (n : Int) (h1 : 0 ≤ n) (h2 : n < 2147483648) :
    toInt32 n = n := by
  unfold toInt32; split <;> omega

/-- The signed right shift inherits the 32-bit band from its final ToInt32. -/
theorem jsShr_range (a k : Int) :
    -2147483648 ≤ jsShr a k ∧ jsShr a k < 2147483648 := by
  unfold jsShr; exact toInt32_range _

/-- The left shift inherits the 32-bit band from its final ToInt32. -/
theorem jsShl_range (a k : Int) :
    -2147483648 ≤ jsShl a k ∧ jsShl a k < 2147483648 := by
  unfold jsShl; exact toInt32_range _

/-- The bitwise xor inherits the 32-bit band from its final ToInt32. -/
theorem jsXor_range (a b : Int) :
    -2147483648 ≤ jsXor a b ∧ jsXor a b < 2147483648 := by
  unfold jsXor; exact toInt32_range _

/-- The bitwise or inherits the 32-bit band from its final ToInt32. -/
theorem jsOr_range (a b : Int) :
    -2147483648 ≤ jsOr a b ∧ jsOr a b < 2147483648 := by
  unfold jsOr; exact toInt32_range _

/-- Masking with 65535 produces a value in [0, 65535]. -/
theorem jsAnd_mask16 (a : Int) : 0 ≤ jsAnd a 65535 ∧ jsAnd a 65535 ≤ 65535 := by
  unfold jsAnd
  have hb : bits32 65535 = 65535 := by decide
  rw [hb]
  have h : Nat.land (bits32 a) 65535 ≤ 65535 := Nat.and_le_right
  have h2 : toInt32 ((Nat.land (bits32 a) 65535 : Nat) : Int) =
      ((Nat.land (bits32 a) 65535 : Nat) : Int) :=
    toInt32_of_small _ (by omega) (by omega)
  rw [h2]
  omega

/-- Component 0 of every `rand64` output is a ToUint32 value in [0, 2^32). -/
theorem rand64_out_high_range (s : PrngState) :
    0 ≤ (PRNG.rand64 s).2.1 ∧ (PRNG.rand64 s).2.1 < 4294967296 := by
  simp only [PRNG.rand64, M64.add64]
  exact toUint32_range _

/-- Unit draws are non-negative. -/
theorem rand_nonneg (s : PrngState) : 0 ≤ (PRNG.rand s).2 := by
  have h := rand64_out_high_range s
  show (0 : ℚ) ≤ ((PRNG.rand32 s).2 : ℚ) / (PRNG.max32 : ℚ)
  apply div_nonneg
  · exact_mod_cast h.1
  · norm_num [PRNG.max32]

/-- Claim C1, counterexample: adding 1 to the WideWord with low half
2^32 - 1 loses the carry, so the result is 0 instead of 2^32; `add64` does
not compute the exact unsigned 64-bit sum modulo 2^64. -/
theorem add64_dropped_carry_cex :
    value64 (M64.add64 (0, 4294967295) (0, 1)) ≠
      (value64 (0, 4294967295) + value64 (0, 1)) % 18446744073709551616 := by
  decide

/-- Claim C1 (amended): `add64` adds the two high halves and the two low
halves independently, each wrapped modulo 2^32, with no carry moved from
the low half into the high half; the result equals the exact unsigned
64-bit sum modulo 2^64 precisely when the low halves do not overflow. -/
theorem add64_componentwise_mod32 (a b : WideWord)
    (ha1 : 0 ≤ a.1) (ha2 : a.1 < 4294967296) (ha3 : 0 ≤ a.2) (ha4 : a.2 < 4294967296)
    (hb1 : 0 ≤ b.1) (hb2 : b.1 < 4294967296) (hb3 : 0 ≤ b.2) (hb4 : b.2 < 4294967296) :
    M64.add64 a b = ((a.1 + b.1) % 4294967296, (a.2 + b.2) % 4294967296) ∧
      (value64 (M64.add64 a b) =
          (value64 a + value64 b) % 18446744073709551616 ↔
        a.2 + b.2 < 4294967296) := by
  refine ⟨rfl, ?_⟩
  simp only [M64.add64, toUint32, value64]
  omega

/-- Witness for `add64_componentwise_mod32` at the WideWords (0, 1) and
(0, 2). -/
theorem add64_componentwise_mod32_witness :
    M64.add64 ((0 : Int), (1 : Int)) ((0 : Int), (2 : Int)) =
        (((0 : Int) + 0) % 4294967296, ((1 : Int) + 2) % 4294967296) ∧
      (value64 (M64.add64 ((0 : Int), (1 : Int)) ((0 : Int), (2 : Int))) =
          (value64 ((0 : Int), (1 : Int)) + value64 ((0 : Int), (2 : Int))) %
            18446744073709551616 ↔
        (1 : Int) + 2 < 4294967296) :=
  add64_componentwise_mod32 (0, 1) (0, 2) (by decide) (by decide) (by decide)
    (by decide) (by decide) (by decide) (by decide) (by decide)

/-- Claim C2, counterexample: on the state s0 = (0, 1), s1 = (0, 0) the
output of `rand64` differs from the step the claim describes (right shift
by 23, left shifts by 17 and 26): the code shifts in the opposite
directions. -/
theorem rand64_claimed_directions_cex :
    (PRNG.rand64 ⟨(0, 1), (0, 0)⟩).2 ≠ (specNextClaimed ⟨(0, 1), (0, 0)⟩).2 := by
  decide

/-- Claim C2 (amended): one call to `rand64` performs exactly the
xorshift128+ step with the code's shift directions — `x = s0`,
`x ^= x << 23` (wide shift), `newS1 = x ^ s1 ^ (x >> 17) ^ (s1 >> 26)`,
`newS0 = s1` — and the output word is `newS1 + s1` with the pre-update
`s1`, under the component-wise wide add. -/
theorem rand64_eq_xorshift128plus_step (s : PrngState) :
    PRNG.rand64 s = specNextXorshift s := rfl

/-- Claim C3: `shift64` with amount 0 does not return the input WideWord;
it falls through to `return arguments`, whose destructuring yields the
whole input pair as element 0 and the amount 0 as element 1. -/
theorem shift64_zero_returns_arguments_object :
    M64.shift64 ((3 : Int), (5 : Int)) 0 = (JsVal.arr 3 5, JsVal.num 0) ∧
      M64.shift64 ((3 : Int), (5 : Int)) 0 ≠ (JsVal.num 3, JsVal.num 5) := by
  decide

/-- Claim C4: every call of `mul64` (and hence of `imul64`) throws a
TypeError, because the recombination recursively invokes `mul64` on the
scalar 32-bit halves, whose parameter destructuring fails; it never
returns the 128-bit product. -/
theorem mul64_always_throws_typeError (a b : WideWord) :
    M64.mul64 a b = Except.error JsError.typeError ∧
      M64.imul64 a b = Except.error JsError.typeError :=
  ⟨rfl, rfl⟩

/-- Claim C5, counterexample: xoring the in-range WideWords (2^31, 0) and
(0, 0) yields a high half of -2^31, which does not lie in [0, 2^32): the
bitwise operators hand back signed 32-bit values. -/
theorem xor64_signed_half_cex :
    (M64.xor64 (2147483648, 0) (0, 0)).1 = -2147483648 ∧
      ¬ 0 ≤ (M64.xor64 (2147483648, 0) (0, 0)).1 := by
  decide

/-- Claim C5 (amended): only `add64` masks both halves into [0, 2^32).
`xor64`, and `shift64` on every non-zero amount, return halves in the
signed band [-2^31, 2^31), and the unmasked recombination sums of `mul32`
can leave halves anywhere in [-2^31, 2^33). -/
theorem wide_ops_half_ranges :
    (∀ a b : WideWord,
        0 ≤ (M64.add64 a b).1 ∧ (M64.add64 a b).1 < 4294967296 ∧
        0 ≤ (M64.add64 a b).2 ∧ (M64.add64 a b).2 < 4294967296) ∧
    (∀ a b : WideWord,
        -2147483648 ≤ (M64.xor64 a b).1 ∧ (M64.xor64 a b).1 < 2147483648 ∧
        -2147483648 ≤ (M64.xor64 a b).2 ∧ (M64.xor64 a b).2 < 2147483648) ∧
    (∀ (a : WideWord) (l : Int), l ≠ 0 → ∃ h lo : Int,
        M64.shift64 a l = (JsVal.num h, JsVal.num lo) ∧
        -2147483648 ≤ h ∧ h < 2147483648 ∧ -2147483648 ≤ lo ∧ lo < 2147483648) ∧
    (∀ a b : Int,
        -2147483648 ≤ (M64.mul32 a b).1 ∧ (M64.mul32 a b).1 < 8589934592 ∧
        -2147483648 ≤ (M64.mul32 a b).2 ∧ (M64.mul32 a b).2 < 8589934592) := by
  refine ⟨?_, ?_, ?_, ?_⟩
  · intro a b
    simp only [M64.add64]
    have h1 := toUint32_range (a.1 + b.1)
    have h2 := toUint32_range (a.2 + b.2)
    exact ⟨h1.1, h1.2, h2.1, h2.2⟩
  · intro a b
    simp only [M64.xor64]
    have h1 := jsXor_range a.1 b.1
    have h2 := jsXor_range a.2 b.2
    exact ⟨h1.1, h1.2, h2.1, h2.2⟩
  · intro a l hl
    rcases hl.lt_or_lt with hneg | hpos
    · refine ⟨jsOr (jsShl a.1 (-l)) (jsShr a.2 (32 + l)), jsShl a.2 (-l), ?_, ?_⟩
      · simp only [M64.shift64, if_neg (by omega : ¬ 0 < l), if_pos hneg]
      · have h1 := jsOr_range (jsShl a.1 (-l)) (jsShr a.2 (32 + l))
        have h2 := jsShl_range a.2 (-l)
        exact ⟨h1.1, h1.2, h2.1, h2.2⟩
    · refine ⟨jsShr a.1 l, jsOr (jsShl a.1 (32 - l)) (jsShr a.2 l), ?_, ?_⟩
      · simp only [M64.shift64, if_pos hpos]
      · have h1 := jsShr_range a.1 l
        have h2 := jsOr_range (jsShl a.1 (32 - l)) (jsShr a.2 l)
        exact ⟨h1.1, h1.2, h2.1, h2.2⟩
  · intro a b
    simp only [M64.mul32]
    have haH := jsAnd_mask16 (jsShr a 16)
    have haL := jsAnd_mask16 a
    have hbH := jsAnd_mask16 (jsShr b 16)
    have hbL := jsAnd_mask16 b
    have hsr := jsShr_range (jsAnd (jsShr a 16) 65535 * jsAnd b 65535 +
      jsAnd a 65535 * jsAnd (jsShr b 16) 65535) 16
    have hsl := jsShl_range (jsAnd (jsShr a 16) 65535 * jsAnd b 65535 +
      jsAnd a 65535 * jsAnd (jsShr b 16) 65535) 16
    have hpH : 0 ≤ jsAnd (jsShr a 16) 65535 * jsAnd (jsShr b 16) 65535 :=
      mul_nonneg haH.1 hbH.1
    have hpH2 : jsAnd (jsShr a 16) 65535 * jsAnd (jsShr b 16) 65535 ≤ 65535 * 65535 :=
      mul_le_mul haH.2 hbH.2 hbH.1 (by norm_num)
    have hpL : 0 ≤ jsAnd a 65535 * jsAnd b 65535 := mul_nonneg haL.1 hbL.1
    have hpL2 : jsAnd a 65535 * jsAnd b 65535 ≤ 65535 * 65535 :=
      mul_le_mul haL.2 hbL.2 hbL.1 (by norm_num)
    refine ⟨by linarith, by linarith, by linarith, by linarith⟩

/-- Witness for `wide_ops_half_ranges`: the shift conjunct applied at the
WideWord (1, 2) with the non-zero amount 5. -/
theorem wide_ops_half_ranges_witness :
    ∃ h lo : Int,
      M64.shift64 ((1 : Int), (2 : Int)) 5 = (JsVal.num h, JsVal.num lo) ∧
        -2147483648 ≤ h ∧ h < 2147483648 ∧ -2147483648 ≤ lo ∧ lo < 2147483648 :=
  wide_ops_half_ranges.2.2.1 (1, 2) 5 (by decide)

set_option maxRecDepth 4000 in
/-- Claim C6, counterexample: on the empty text the first hash lands in
component 0 — the high half of a WideWord under the layer's `[aH, aL]`
convention — while the claim puts it in the low half; the low half holds
the re-hash of the prefixed text instead. -/
theorem hash64_halves_swapped_cex :
    (PRNG.hash64 emptyStr).1 = PRNG.hash32 emptyStr ∧
      (PRNG.hash64 emptyStr).2 ≠ PRNG.hash32 emptyStr := by
  decide

/-- Claim C6 (amended): for every text, `hash64` returns the WideWord whose
high half (component 0) is `hash32` of the text and whose low half
(component 1) is `hash32` of the text prefixed with the decimal rendering
of that first hash value. -/
theorem hash64_high_low_structure (s : String) :
    PRNG.hash64 s =
      (PRNG.hash32 s, PRNG.hash32 (toString (PRNG.hash32 s) ++ s)) := rfl

/-- Claim C9, counterexample: from the state s0 = (0, 0),
s1 = (0xFC000000, 0) the next `rand32` value is 0xFFFFFFFF, so `rand`
returns exactly 1 and is not strictly below 1. -/
theorem drawUnit_attains_one_cex :
    (PRNG.rand ⟨(0, 0), (4227858432, 0)⟩).2 = 1 ∧
      ¬ (PRNG.rand ⟨(0, 0), (4227858432, 0)⟩).2 < 1 := by
  have h : (PRNG.rand32 ⟨(0, 0), (4227858432, 0)⟩).2 = 4294967295 := by decide
  have h1 : (PRNG.rand ⟨(0, 0), (4227858432, 0)⟩).2 = 1 := by
    show ((PRNG.rand32 ⟨(0, 0), (4227858432, 0)⟩).2 : ℚ) / (PRNG.max32 : ℚ) = 1
    rw [h]
    norm_num [PRNG.max32]
  exact ⟨h1, by rw [h1]; exact lt_irrefl 1⟩

/-- Claim C9 (amended): `rand` returns the `rand32` draw divided by
0xFFFFFFFF; the quotient lies in the closed interval [0, 1] and equals 1
exactly when the draw is the maximal value 0xFFFFFFFF. -/
theorem drawUnit_closed_unit_interval (s : PrngState) :
    (PRNG.rand s).2 = ((PRNG.rand32 s).2 : ℚ) / (PRNG.max32 : ℚ) ∧
      0 ≤ (PRNG.rand s).2 ∧ (PRNG.rand s).2 ≤ 1 ∧
      ((PRNG.rand s).2 = 1 ↔ (PRNG.rand32 s).2 = 4294967295) := by
  have h := rand64_out_high_range s
  have hmax : ((PRNG.max32 : Int) : ℚ) ≠ 0 := by norm_num [PRNG.max32]
  refine ⟨rfl, rand_nonneg s, ?_, ?_⟩
  · show ((PRNG.rand32 s).2 : ℚ) / (PRNG.max32 : ℚ) ≤ 1
    rw [div_le_one (by norm_num [PRNG.max32])]
    have : (PRNG.rand32 s).2 ≤ PRNG.max32 := by
      simp only [PRNG.rand32, PRNG.max32]; omega
    exact_mod_cast this
  · show ((PRNG.rand32 s).2 : ℚ) / (PRNG.max32 : ℚ) = 1 ↔ _
    rw [div_eq_one_iff_eq hmax]
    constructor
    · intro hq
      have : (PRNG.rand32 s).2 = PRNG.max32 := by exact_mod_cast hq
      simpa [PRNG.max32] using this
    · intro hq
      rw [hq]
      norm_num [PRNG.max32]

/-- Claim C8: splitting a concrete 2x2 grid into 1x1 rooms hands every
child the unapplied `copy` method object as its RNG slot — none of them
receives a generator state copied from the parent, whose own slot still
holds the state (1, 2), (3, 4). -/
theorem split_children_rng_method_ref :
    Maze.split ⟨2, 2, RngSlot.prng ⟨(1, 2), (3, 4)⟩, [[true, false], [false, true]]⟩ 1 1 =
      [[⟨1, 1, RngSlot.copyMethod, [[true]]⟩, ⟨1, 1, RngSlot.copyMethod, [[false]]⟩],
        [⟨1, 1, RngSlot.copyMethod, [[false]]⟩, ⟨1, 1, RngSlot.copyMethod, [[true]]⟩]] ∧
      (⟨2, 2, RngSlot.prng ⟨(1, 2), (3, 4)⟩,
          [[true, false], [false, true]]⟩ : Maze).rng ≠ RngSlot.copyMethod := by
  decide

/-- Claim C10: for positive dimensions the default wall predicate holds
exactly on the cells with x ≤ 0, x ≥ X - 1, y ≤ 0 or y ≥ Y - 1 — the whole
out-of-bounds region together with the one-cell border ring inside the
bounds. -/
theorem isEdge_border_ring (X Y x y : Int) (hX : 0 < X) (hY : 0 < Y) :
    Maze.isEdge X Y x y = true ↔
      (x ≤ 0 ∨ X - 1 ≤ x ∨ y ≤ 0 ∨ Y - 1 ≤ y) := by
  simp only [Maze.isEdge, Bool.or_eq_true, decide_eq_true_eq]
  omega

/-- Witness for `isEdge_border_ring` on a 3x3 grid at the interior cell
(1, 1), together with a direct evaluation showing that cell is no wall. -/
theorem isEdge_border_ring_witness :
    Maze.isEdge 3 3 1 1 = false ∧
      (Maze.isEdge 3 3 1 1 = true ↔
        ((1 : Int) ≤ 0 ∨ (3 : Int) - 1 ≤ 1 ∨ (1 : Int) ≤ 0 ∨ (3 : Int) - 1 ≤ 1)) :=
  ⟨by decide, isEdge_border_ring 3 3 1 1 (by decide) (by decide)⟩

/-- An open cell survives its `loss` draw whenever rate and weight are
strictly positive: the survival test compares a non-negative unit draw
against a strictly negative threshold. -/
theorem lossCell_true_stays (rng : PrngState) (rate fxy : ℚ)
    (h1 : 0 < rate) (h2 : 0 < fxy) :
    (Maze.lossCell rng rate fxy true).2 = true := by
  show decide ((PRNG.rand rng).2 > -rate * fxy) = true
  rw [decide_eq_true_eq]
  have h0 := rand_nonneg rng
  have hneg : -rate * fxy < 0 := by nlinarith
  linarith

/-- Within one `loss` row, every open cell is still open afterwards, for
any generator state and starting column index. -/
theorem lossRow_keeps_open (rate : ℚ) (f : Nat → Nat → ℚ) (hr : 0 < rate)
    (hf : ∀ x y, 0 < f x y) (y : Nat) :
    ∀ (row : List Bool) (rng : PrngState) (x0 i : Nat),
      row[i]? = some true →
      (Maze.lossRow rate f y rng row x0).2[i]? = some true := by
  intro row
  induction row with
  | nil => intro rng x0 i h; simp at h
  | cons v rest ih =>
    intro rng x0 i h
    cases i with
    | zero =>
      simp only [List.getElem?_cons_zero, Option.some.injEq] at h
      subst h
      simp only [Maze.lossRow, List.getElem?_cons_zero, Option.some.injEq]
      exact lossCell_true_stays rng rate (f x0 y) hr (hf x0 y)
    | succ n =>
      simp only [List.getElem?_cons_succ] at h
      simp only [Maze.lossRow, List.getElem?_cons_succ]
      exact ih _ _ n h

/-- Across all `loss` rows, every open cell is still open afterwards, for
any generator state and starting row index. -/
theorem lossRows_keeps_open (rate : ℚ) (f : Nat → Nat → ℚ) (hr : 0 < rate)
    (hf : ∀ x y, 0 < f x y) :
    ∀ (rows : List (List Bool)) (rng : PrngState) (y0 x y : Nat),
      cellAt rows x y = some true →
      cellAt (Maze.lossRows rate f rng rows y0).2 x y = some true := by
  intro rows
  induction rows with
  | nil => intro rng y0 x y h; simp [cellAt] at h
  | cons row rest ih =>
    intro rng y0 x y h
    cases y with
    | zero =>
      simp only [cellAt, List.getElem?_cons_zero, Option.some_bind] at h
      simp only [Maze.lossRows, cellAt, List.getElem?_cons_zero, Option.some_bind]
      exact lossRow_keeps_open rate f hr hf y0 row rng 0 x h
    | succ n =>
      simp only [cellAt, List.getElem?_cons_succ] at h
      simp only [Maze.lossRows, cellAt, List.getElem?_cons_succ]
      exact ih _ _ x n h

/-- Claim C7, counterexample: with rate 1 and the constant weight 1 — a
positive rate and a non-negative weight — the single closed cell of a 1x1
grid flips to open under `loss`: the pass opens closed cells instead of
keeping them closed. -/
theorem loss_opens_closed_cell_cex :
    (Maze.loss zeroState [[false]] 1 (fun _ _ => 1)).2 = [[true]] := by
  have h0 : (PRNG.rand32 zeroState).2 = 0 := by decide
  have hq : (PRNG.rand zeroState).2 = 0 := by
    show ((PRNG.rand32 zeroState).2 : ℚ) / (PRNG.max32 : ℚ) = 0
    rw [h0]
    norm_num
  have hc : (Maze.lossCell zeroState 1 1 false).2 = true := by
    show decide ((PRNG.rand zeroState).2 < 1 * 1) = true
    rw [decide_eq_true_eq, hq]
    norm_num
  show [[(Maze.lossCell zeroState 1 1 false).2]] = [[true]]
  rw [hc]

/-- Claim C7 (amended): for a positive rate and strictly positive weights
the `loss` pass only ever adds openings — every cell open before the pass
is still open after it — while a closed cell flips to open exactly when
its fresh unit draw falls strictly below rate times its weight. -/
theorem loss_only_adds_openings (rng : PrngState) (data : List (List Bool))
    (rate : ℚ) (f : Nat → Nat → ℚ) (hr : 0 < rate) (hf : ∀ x y, 0 < f x y) :
    (∀ x y, cellAt data x y = some true →
        cellAt (Maze.loss rng data rate f).2 x y = some true) ∧
    (∀ (s : PrngState) (fxy : ℚ),
        ((Maze.lossCell s rate fxy false).2 = true ↔ (PRNG.rand s).2 < rate * fxy)) := by
  refine ⟨?_, fun s fxy => ?_⟩
  · intro x y h
    exact lossRows_keeps_open rate f hr hf data rng 0 x y h
  · have h : (Maze.lossCell s rate fxy false).2 = decide ((PRNG.rand s).2 < rate * fxy) := by
      simp [Maze.lossCell]
    rw [h]
    exact decide_eq_true_iff

/-- Witness for `loss_only_adds_openings`: on a 1x1 grid whose only cell is
open, rate 1 and constant weight 1, the cell is still open after the pass. -/
theorem loss_only_adds_openings_witness :
    cellAt (Maze.loss zeroState [[true]] 1 (fun _ _ => 1)).2 0 0 = some true :=
  (loss_only_adds_openings zeroState [[true]] 1 (fun _ _ => 1) (by norm_num)
    (fun _ _ => by norm_num)).1 0 0 (by decide)
